import Mathlib

/-!
Shallow embedding of the session/message persistence layer of the Chatbot
repository (src/api/index.py and src/api/database.py).

The Volatile Store (`chat_sessions` in index.py) is a Python dict from session
id to a list of message dicts; Python dicts preserve insertion order, so it is
modelled as an insertion-ordered association list.  The Persistent Store
(DatabaseManager in database.py) is reached only through boolean success
results and message-list reads, so the façade functions take the outcome of
each database call as an explicit parameter (`dbOk`, `dbConnected`, `dbMsgs`):
`dbOk = true` models `db_manager.connected and db_manager.add_message(...)`
succeeding, and so on.  Timestamps (`datetime.now().isoformat()`) are modelled
as caller-supplied naturals; only their ordering is ever used by the code.
-/

namespace Chatbot

/-- A chat message as stored by the code: a role (user / assistant / system),
textual content, and a timestamp. -/
structure Msg where
  role : String
  content : String
  timestamp : Nat
deriving DecidableEq, Repr

/-- The Volatile Store: the `chat_sessions` dict of index.py, an
insertion-ordered mapping from session id to its ordered message list. -/
abbrev Mem := List (String × List Msg)

/-- Dict lookup `chat_sessions[sid]`, as an Option. -/
def memLookup (mem : Mem) (sid : String) : Option (List Msg) :=
  (mem.find? (fun p => p.1 = sid)).map (fun p => p.2)

/-- Membership test `sid in chat_sessions`. -/
def memHas (mem : Mem) (sid : String) : Bool :=
  mem.any (fun p => p.1 = sid)

/-- Dict update `chat_sessions[sid] = msgs`: overwrites in place when the key
exists, otherwise appends the new key at the end (Python insertion order). -/
def memSet (mem : Mem) (sid : String) (msgs : List Msg) : Mem :=
  if memHas mem sid then
    mem.map (fun p => if p.1 = sid then (p.1, msgs) else p)
  else
    mem ++ [(sid, msgs)]

/-- The fixed cap on tracked sessions, `max_memory_sessions = 100` in
index.py. -/
def max_memory_sessions : Nat := 100

/-- The argmin scan of `min(chat_sessions.keys(), key=lambda x:
len(chat_sessions[x]))`: Python `min` returns the first key attaining the
minimal message count in iteration order. -/
def minByLen (mem : Mem) : Option String :=
  (mem.foldl
    (fun acc p =>
      match acc with
      | none => some p
      | some q => if p.2.length < q.2.length then some p else some q)
    none).map (fun p => p.1)

/-- The eviction step of index.py lines 116-118: delete the session with the
fewest stored messages. -/
def memEvict (mem : Mem) : Mem :=
  match minByLen mem with
  | none => mem
  | some sid => mem.filter (fun p => !(p.1 = sid))

/-- Lines 106-113 of index.py: ensure the session key exists and append the
new message dict to its list, before the cap check. -/
def memAppendRaw (mem : Mem) (sid role content : String) (ts : Nat) : Mem :=
  memSet mem sid ((memLookup mem sid).getD [] ++ [⟨role, content, ts⟩])

/-- The fallback branch of `save_message_with_fallback` (index.py lines
104-120): append to the Volatile Store, then evict the fewest-message session
when the session count exceeds the cap. -/
def memSaveMessage (mem : Mem) (sid role content : String) (ts : Nat) : Mem :=
  let mem1 := memAppendRaw mem sid role content ts
  if mem1.length > max_memory_sessions then memEvict mem1 else mem1

/-- `save_message_with_fallback` (index.py lines 98-120).  `dbOk` models
`db_manager.connected and db_manager.add_message(session_id, role, content)`
evaluating to True; when it does the function returns True without touching
the Volatile Store, otherwise it writes the fallback copy and returns True. -/
def save_message_with_fallback (dbOk : Bool) (mem : Mem) (sid role content : String)
    (ts : Nat) : Bool × Mem :=
  if dbOk then (true, mem)
  else (true, memSaveMessage mem sid role content ts)

/-- `create_session_with_fallback` (index.py lines 133-143).  `dbOk` models
`db_manager.connected and db_manager.create_session(session_id)` evaluating to
True; when it does the function returns the id at once, otherwise it ensures a
Volatile Store entry exists before returning the id. -/
def create_session_with_fallback (dbOk : Bool) (mem : Mem) (sid : String) :
    String × Mem :=
  if dbOk then (sid, mem)
  else (sid, if memHas mem sid then mem else mem ++ [(sid, [])])

/-- `get_messages_with_fallback` (index.py lines 122-131).  `dbConnected`
models `db_manager.connected` and `dbMsgs` the list that
`db_manager.get_session_messages(session_id)` would return (database.py
returns `[]` whenever it is disconnected or the query fails). -/
def get_messages_with_fallback (dbConnected : Bool) (dbMsgs : List Msg) (mem : Mem)
    (sid : String) : List Msg :=
  if dbConnected && !dbMsgs.isEmpty then dbMsgs
  else (memLookup mem sid).getD []

/-- The session-id validation shared by the history and delete endpoints:
`not session_id or session_id.strip() == '' or session_id == 'undefined'`. -/
def invalidSessionId (sid : String) : Bool :=
  sid = "" || sid.trim = "" || sid = "undefined"

/-- The `delete_session` endpoint (index.py lines 445-473).  `dbDeleted`
models the result of `db_manager.delete_session(session_id)` (True exactly
when the Persistent Store deletion affected a session row; False when the
store is disconnected, held no such session, or errored).  Returns the HTTP
status and the updated Volatile Store. -/
def delete_session (dbDeleted : Bool) (mem : Mem) (sid : String) : Nat × Mem :=
  if invalidSessionId sid then (400, mem)
  else
    let deleted_from_memory := memHas mem sid
    let mem1 := if deleted_from_memory then mem.filter (fun p => !(p.1 = sid)) else mem
    if dbDeleted || deleted_from_memory then (200, mem1) else (404, mem1)

/-- API message content: plain text, or the structured multimodal payload
produced by `format_multimodal_message` (index.py lines 145-162). -/
inductive ApiContent where
  | text (s : String)
  | multimodal (s : String) (image : String)
deriving DecidableEq, Repr

/-- `format_multimodal_message` (index.py lines 145-162). -/
def format_multimodal_message (content : String) (image_data : Option String) :
    ApiContent :=
  match image_data with
  | some img => .multimodal content img
  | none => .text content

/-- The marker-stripping step of index.py lines 219-221: when the stored
content starts with the attachment marker, every occurrence of the marker is
replaced by the empty string. -/
def stripImageMarker (c : String) : String :=
  if c.startsWith "[IMAGE ATTACHED] " then c.replace "[IMAGE ATTACHED] " "" else c

/-- The `recent_messages` slice of index.py line 205: the last 10 stored
messages. -/
def recent_slice (msgs : List Msg) : List Msg :=
  if msgs.length > 10 then msgs.drop (msgs.length - 10) else msgs

/-- The context-assembly loop of index.py lines 208-226: walk the recent
messages with their indices, keep only user/assistant roles, send the
multimodal payload for the final user message when an image is attached, and
send marker-stripped plain text otherwise. -/
def chat_api_messages (recent : List Msg) (image_data : Option String)
    (api_content : ApiContent) : List (String × ApiContent) :=
  recent.enum.foldl
    (fun msgs p =>
      if p.2.role = "user" || p.2.role = "assistant" then
        if p.1 = recent.length - 1 && p.2.role = "user" && image_data.isSome then
          msgs ++ [(p.2.role, api_content)]
        else
          msgs ++ [(p.2.role, ApiContent.text (stripImageMarker p.2.content))]
      else msgs)
    []

/-- The `chat` endpoint (index.py lines 168-201) for a text-only request on
the path where `OPENROUTER_API_KEY` is unset: look up existing messages,
create the session when none are found, store the user message, then fail the
relay with HTTP 503 before any external call.  `dbConnected` models
`db_manager.connected`, `dbMsgs` the persistent read, `dbCreateOk` /
`dbSaveOk` the success of the corresponding database writes.  Returns the
HTTP status and the updated Volatile Store. -/
def chat_no_api_key (dbConnected : Bool) (dbMsgs : List Msg) (dbCreateOk dbSaveOk : Bool)
    (mem : Mem) (sid message : String) (ts : Nat) : Nat × Mem :=
  let existing := get_messages_with_fallback dbConnected dbMsgs mem sid
  let mem1 :=
    if existing.isEmpty then
      (create_session_with_fallback (dbConnected && dbCreateOk) mem sid).2
    else mem
  let saved := save_message_with_fallback (dbConnected && dbSaveOk) mem1 sid "user" message ts
  if saved.1 = false then (500, saved.2) else (503, saved.2)

/-- The system-message body built by the txt branch of the `upload_file`
endpoint (index.py line 369): filename, the first 2000 characters of the
decoded content, and the ellipsis marker exactly when the content is longer
than 2000 characters. -/
def txt_upload_body (filename text_content : String) : String :=
  "User uploaded a text file \x27" ++ filename ++ "\x27. Content:\n\n" ++
    text_content.take 2000 ++
    (if text_content.length > 2000 then "..." else "")

/-- The txt branch of the `upload_file` endpoint (index.py lines 281-313 and
358-370): look up existing messages, create the session when none are found,
then store the summary of the decoded file as a system-authored message
(the Cloudinary upload does not touch either store).  Returns the updated
Volatile Store. -/
def upload_txt (dbConnected : Bool) (dbMsgs : List Msg) (dbCreateOk dbSaveOk : Bool)
    (mem : Mem) (sid filename text_content : String) (ts : Nat) : Mem :=
  let existing := get_messages_with_fallback dbConnected dbMsgs mem sid
  let mem1 :=
    if existing.isEmpty then
      (create_session_with_fallback (dbConnected && dbCreateOk) mem sid).2
    else mem
  (save_message_with_fallback (dbConnected && dbSaveOk) mem1 sid "system"
    (txt_upload_body filename text_content) ts).2

/-- A session summary entry as returned by `GET /api/sessions`. -/
structure SessionSummary where
  session_id : String
  preview : String
  created_at : Nat
  updated_at : Nat
  message_count : Nat
deriving DecidableEq, Repr

/-- The preview construction shared by index.py lines 419-424 and database.py
lines 222-226: the first user message content sliced to 50 characters, with
"..." appended when the content is longer than 50 characters, and "New chat"
when no user message exists. -/
def session_preview (msgs : List Msg) : String :=
  match msgs.find? (fun m => m.role = "user") with
  | none => "New chat"
  | some m => m.content.take 50 ++ (if m.content.length > 50 then "..." else "")

/-- The per-session summary body of the fallback branch of `list_sessions`
(index.py lines 417-434). -/
def memory_session_summary (sid : String) (msgs : List Msg) : SessionSummary :=
  { session_id := sid
    preview := session_preview msgs
    created_at := ((msgs.head?).getD ⟨"", "", 0⟩).timestamp
    updated_at := ((msgs.getLast?).getD ⟨"", "", 0⟩).timestamp
    message_count := (msgs.filter (fun m => m.role = "user" || m.role = "assistant")).length }

/-- The fallback branch of the `list_sessions` endpoint (index.py lines
415-439): summarise every non-empty Volatile Store session, then sort by
`updated_at` descending. -/
def list_sessions_memory (mem : Mem) : List SessionSummary :=
  (mem.filterMap (fun p => if p.2.isEmpty then none else some (memory_session_summary p.1 p.2))).mergeSort
    (fun a b => b.updated_at ≤ a.updated_at)

/-- A Persistent Store session row paired with its creation time, update time
and timestamp-ordered message list, as read by `get_recent_sessions`. -/
structure DbSessionRow where
  session_id : String
  created_at : Nat
  updated_at : Nat
  msgs : List Msg
deriving DecidableEq, Repr

/-- The per-row summary body of `DatabaseManager.get_recent_sessions`
(database.py lines 209-234): preview from the first user message, count over
user/assistant roles. -/
def db_session_summary (r : DbSessionRow) : SessionSummary :=
  { session_id := r.session_id
    preview := session_preview r.msgs
    created_at := r.created_at
    updated_at := r.updated_at
    message_count := (r.msgs.filter (fun m => m.role = "user" || m.role = "assistant")).length }

/-- `DatabaseManager.get_recent_sessions` (database.py lines 193-242) applied
to the query results: the input list models the sessions already ordered by
`updated_at` descending and capped at the query limit, each carrying its
timestamp-ordered messages; the function derives preview and user/assistant
message count per session. -/
def get_recent_sessions (rows : List DbSessionRow) : List SessionSummary :=
  rows.map db_session_summary

/-- The preview shape stated by the spec: the first user-authored message
content unmodified when at most 50 characters long, else its first 50
characters followed by the ellipsis marker. -/
def preview_spec (firstUser : String) : String :=
  if firstUser.length > 50 then firstUser.take 50 ++ "..." else firstUser

/-- Volatile Store states reachable from the empty store through the code
paths that mutate `chat_sessions`: the fallback branch of
`save_message_with_fallback`, the fallback branch of
`create_session_with_fallback`, and the deletion in `delete_session`. -/
inductive Reachable : Mem → Prop where
  | empty : Reachable []
  | save (mem : Mem) (sid role content : String) (ts : Nat) :
      Reachable mem → Reachable (memSaveMessage mem sid role content ts)
  | create (mem : Mem) (sid : String) :
      Reachable mem → Reachable (create_session_with_fallback false mem sid).2
  | delete (mem : Mem) (sid : String) :
      Reachable mem → Reachable (mem.filter (fun p => !(p.1 = sid)))

/-- Pairwise-distinct session ids. -/
def akey (i : Nat) : String := String.mk (List.replicate i 'a')

/-- n sessions, each created with an empty message list. -/
def mCre (n : Nat) : Mem := (List.range n).map (fun i => (akey i, ([] : List Msg)))

/-- n sessions, each holding two user messages. -/
def mFull (n : Nat) : Mem :=
  (List.range n).map (fun i => (akey i, [Msg.mk "user" "m" 0, Msg.mk "user" "m" 0]))

/-! Helper lemmas about the Volatile Store primitives. -/

theorem memLookup_eq_none (mem : Mem) (sid : String) (h : memHas mem sid = false) :
    memLookup mem sid = none := by
  simp only [memHas, List.any_eq_false, decide_eq_true_eq] at h
  simp only [memLookup, List.find?_eq_none, decide_eq_true_eq]
  rw [List.find?_eq_none.mpr (by simpa using h)]
  rfl

theorem memLookup_append_fresh (mem : Mem) (sid : String) (msgs : List Msg)
    (h : memHas mem sid = false) :
    memLookup (mem ++ [(sid, msgs)]) sid = some msgs := by
  simp only [memHas, List.any_eq_false, decide_eq_true_eq] at h
  have hnone : mem.find? (fun p => decide (p.1 = sid)) = none := by
    rw [List.find?_eq_none]
    simpa using h
  simp [memLookup, List.find?_append, hnone]

theorem find?_memSet_of_has (mem : Mem) (sid : String) (msgs : List Msg)
    (h : memHas mem sid = true) :
    (mem.map (fun p => if p.1 = sid then (p.1, msgs) else p)).find?
        (fun p => decide (p.1 = sid)) = some (sid, msgs) := by
  induction mem with
  | nil => simp [memHas] at h
  | cons x xs ih =>
    by_cases hx : x.1 = sid
    · subst hx
      simp [List.find?]
    · have h2 : memHas xs sid = true := by
        simp only [memHas, List.any_cons, decide_eq_true_eq] at h
        rcases Bool.or_eq_true_iff.mp h with h1 | h1
        · exact absurd (of_decide_eq_true h1) hx
        · simpa [memHas] using h1
      rw [List.map_cons, if_neg hx, List.find?_cons_of_neg _ (by simpa using hx)]
      exact ih h2

theorem memLookup_memSet_self (mem : Mem) (sid : String) (msgs : List Msg) :
    memLookup (memSet mem sid msgs) sid = some msgs := by
  unfold memSet
  by_cases h : memHas mem sid = true
  · rw [if_pos h]
    simp only [memLookup]
    rw [find?_memSet_of_has mem sid msgs h]
    rfl
  · rw [if_neg h]
    exact memLookup_append_fresh mem sid msgs (by simpa using h)

theorem memSet_length_of_has (mem : Mem) (sid : String) (msgs : List Msg)
    (h : memHas mem sid = true) :
    (memSet mem sid msgs).length = mem.length := by
  simp [memSet, h]

theorem memSet_length_of_fresh (mem : Mem) (sid : String) (msgs : List Msg)
    (h : memHas mem sid = false) :
    (memSet mem sid msgs).length = mem.length + 1 := by
  simp [memSet, h]

theorem memAppendRaw_length_le (mem : Mem) (sid role content : String) (ts : Nat) :
    (memAppendRaw mem sid role content ts).length ≤ mem.length + 1 := by
  unfold memAppendRaw
  by_cases h : memHas mem sid = true
  · rw [memSet_length_of_has mem sid _ h]; omega
  · rw [memSet_length_of_fresh mem sid _ (by simpa using h)]

theorem memAppendRaw_fresh (mem : Mem) (sid role content : String) (ts : Nat)
    (h : memHas mem sid = false) :
    memAppendRaw mem sid role content ts = mem ++ [(sid, [⟨role, content, ts⟩])] := by
  unfold memAppendRaw
  rw [memLookup_eq_none mem sid h]
  simp [memSet, h]

theorem memSaveMessage_of_small (mem : Mem) (sid role content : String) (ts : Nat)
    (h : (memAppendRaw mem sid role content ts).length ≤ max_memory_sessions) :
    memSaveMessage mem sid role content ts = memAppendRaw mem sid role content ts := by
  unfold memSaveMessage
  rw [if_neg (by omega)]

theorem memSaveMessage_lookup (mem : Mem) (sid role content : String) (ts : Nat)
    (h : (memAppendRaw mem sid role content ts).length ≤ max_memory_sessions) :
    memLookup (memSaveMessage mem sid role content ts) sid
      = some ((memLookup mem sid).getD [] ++ [⟨role, content, ts⟩]) := by
  rw [memSaveMessage_of_small mem sid role content ts h]
  unfold memAppendRaw
  exact memLookup_memSet_self mem sid _

theorem saveFresh (mem : Mem) (sid role content : String) (ts : Nat)
    (h : memHas mem sid = false) (hlen : mem.length < max_memory_sessions) :
    memSaveMessage mem sid role content ts = mem ++ [(sid, [⟨role, content, ts⟩])] := by
  have hraw := memAppendRaw_fresh mem sid role content ts h
  rw [memSaveMessage_of_small mem sid role content ts (by rw [hraw]; simp; omega), hraw]

theorem memSet_append_last (base : Mem) (sid : String) (ms msgs : List Msg)
    (h : ∀ p ∈ base, ¬(p.1 = sid)) :
    memSet (base ++ [(sid, ms)]) sid msgs = base ++ [(sid, msgs)] := by
  have hhas : memHas (base ++ [(sid, ms)]) sid = true := by
    simp [memHas]
  simp only [memSet, hhas, if_true, List.map_append]
  congr 1
  · calc List.map (fun p => if p.1 = sid then (p.1, msgs) else p) base
        = List.map (fun p => p) base :=
          List.map_congr_left (fun p hp => by rw [if_neg (h p hp)])
      _ = base := List.map_id' base
  · simp

theorem saveLast (base : Mem) (sid : String) (ms : List Msg) (role content : String) (ts : Nat)
    (h : ∀ p ∈ base, ¬(p.1 = sid)) (hlen : (base ++ [(sid, ms)]).length ≤ max_memory_sessions) :
    memSaveMessage (base ++ [(sid, ms)]) sid role content ts
      = base ++ [(sid, ms ++ [⟨role, content, ts⟩])] := by
  have hfresh : memHas base sid = false := by
    simp only [memHas, List.any_eq_false, decide_eq_true_eq]
    exact h
  have hlook : memLookup (base ++ [(sid, ms)]) sid = some ms :=
    memLookup_append_fresh base sid ms hfresh
  have hraw : memAppendRaw (base ++ [(sid, ms)]) sid role content ts
      = base ++ [(sid, ms ++ [⟨role, content, ts⟩])] := by
    unfold memAppendRaw
    rw [hlook]
    exact memSet_append_last base sid ms _ h
  rw [memSaveMessage_of_small _ sid role content ts (by rw [hraw]; simpa using hlen), hraw]

theorem createFresh (mem : Mem) (sid : String) (h : memHas mem sid = false) :
    (create_session_with_fallback false mem sid).2 = mem ++ [(sid, [])] := by
  simp [create_session_with_fallback, h]

theorem memHas_filter_ne (mem : Mem) (sid : String) :
    memHas (mem.filter (fun p => !(p.1 = sid))) sid = false := by
  simp only [memHas, List.any_eq_false, List.mem_filter, decide_eq_true_eq]
  intro p hp
  have := hp.2
  simp only [Bool.not_eq_true', decide_eq_false_iff_not] at this
  exact this

/-! Lemmas about the fewest-messages argmin scan and eviction. -/

theorem minFoldl_le (l : Mem) : ∀ (a : String × List Msg),
    ∃ q, l.foldl
        (fun acc p =>
          match acc with
          | none => some p
          | some q => if p.2.length < q.2.length then some p else some q)
        (some a) = some q
      ∧ (q = a ∨ q ∈ l) ∧ q.2.length ≤ a.2.length ∧ ∀ p ∈ l, q.2.length ≤ p.2.length := by
  induction l with
  | nil => exact fun a => ⟨a, rfl, Or.inl rfl, Nat.le_refl _, by simp⟩
  | cons x xs ih =>
    intro a
    by_cases hx : x.2.length < a.2.length
    · obtain ⟨q, hq, hmem, hle, hall⟩ := ih x
      refine ⟨q, by simpa [hx] using hq, ?_, ?_, ?_⟩
      · rcases hmem with h | h
        · exact Or.inr (by simp [h])
        · exact Or.inr (by simp [h])
      · omega
      · intro p hp
        rcases List.mem_cons.mp hp with h | h
        · subst h; exact hle
        · exact hall p h
    · obtain ⟨q, hq, hmem, hle, hall⟩ := ih a
      refine ⟨q, by simpa [hx] using hq, ?_, hle, ?_⟩
      · rcases hmem with h | h
        · exact Or.inl h
        · exact Or.inr (by simp [h])
      · intro p hp
        rcases List.mem_cons.mp hp with h | h
        · subst h; omega
        · exact hall p h

theorem minByLen_spec (mem : Mem) (hne : mem ≠ []) :
    ∃ k ms, minByLen mem = some k ∧ (k, ms) ∈ mem
      ∧ ∀ p ∈ mem, ms.length ≤ p.2.length := by
  match mem, hne with
  | x :: xs, _ =>
    obtain ⟨q, hq, hmem, hle, hall⟩ := minFoldl_le xs x
    refine ⟨q.1, q.2, ?_, ?_, ?_⟩
    · simp only [minByLen, List.foldl_cons]
      rw [hq]
      rfl
    · rcases hmem with h | h
      · subst h; exact List.mem_cons_self _ _
      · exact List.mem_cons_of_mem _ h
    · intro p hp
      rcases List.mem_cons.mp hp with h | h
      · subst h; exact hle
      · exact hall p h

theorem minByLen_append_strict (base : Mem) (k : String) (ms : List Msg)
    (h : ∀ p ∈ base, ms.length < p.2.length) :
    minByLen (base ++ [(k, ms)]) = some k := by
  cases base with
  | nil => rfl
  | cons x xs =>
    obtain ⟨q, hq, hmem, _, _⟩ := minFoldl_le xs x
    have hqlen : ms.length < q.2.length := by
      rcases hmem with hh | hh
      · rw [hh]; exact h x (List.mem_cons_self _ _)
      · exact h q (List.mem_cons_of_mem _ hh)
    simp only [minByLen, List.cons_append, List.foldl_cons, List.foldl_append]
    rw [hq]
    simp [hqlen]

theorem filter_length_lt_of_mem (mem : Mem) (k : String) (ms : List Msg)
    (h : (k, ms) ∈ mem) :
    (mem.filter (fun p => !(p.1 = k))).length < mem.length := by
  induction mem with
  | nil => simp at h
  | cons x xs ih =>
    rcases List.mem_cons.mp h with hx | hx
    · subst hx
      simp only [List.filter_cons, decide_eq_true_eq, Bool.not_eq_true',
        decide_eq_false_iff_not, not_not]
      rw [if_neg (by simp)]
      have := List.length_filter_le (fun p => !(p.1 = k)) xs
      simp only [List.length_cons]
      omega
    · have := ih hx
      simp only [List.filter_cons]
      by_cases hp : (!(x.1 = k)) = true
      · rw [if_pos hp]
        simp only [List.length_cons]
        omega
      · rw [if_neg hp]
        simp only [List.length_cons]
        omega

theorem memEvict_length_lt (mem : Mem) (hne : mem ≠ []) :
    (memEvict mem).length < mem.length := by
  obtain ⟨k, ms, hmin, hmem, _⟩ := minByLen_spec mem hne
  simp only [memEvict, hmin]
  exact filter_length_lt_of_mem mem k ms hmem

theorem memSaveMessage_cap (mem : Mem) (sid role content : String) (ts : Nat)
    (h : mem.length ≤ max_memory_sessions) :
    (memSaveMessage mem sid role content ts).length ≤ max_memory_sessions := by
  unfold memSaveMessage
  have hraw := memAppendRaw_length_le mem sid role content ts
  by_cases hgt : (memAppendRaw mem sid role content ts).length > max_memory_sessions
  · rw [if_pos hgt]
    have hne : memAppendRaw mem sid role content ts ≠ [] := by
      intro hnil
      rw [hnil] at hgt
      simp [max_memory_sessions] at hgt
    have := memEvict_length_lt (memAppendRaw mem sid role content ts) hne
    omega
  · rw [if_neg hgt]
    omega

/-! Concrete reachable Volatile Store states used to witness the eviction
behaviour: a family of pairwise-distinct session ids, a state of n sessions
created empty, and a state of n sessions holding two messages each. -/

theorem akey_inj {i j : Nat} (h : akey i = akey j) : i = j := by
  have hdata : (akey i).data = (akey j).data := by rw [h]
  simp only [akey, List.replicate_inj] at hdata
  exact hdata.1

theorem akey_ne_b (i : Nat) : ¬ akey i = "b" := by
  intro h
  have hdata : List.replicate i 'a' = "b".data := congrArg String.data h
  rw [show "b".data = [Char.ofNat 98] from rfl] at hdata
  have hlen : i = 1 := by simpa using congrArg List.length hdata
  subst hlen
  simp at hdata

theorem keys_ne_of_memHas_false (mem : Mem) (sid : String) (h : memHas mem sid = false) :
    ∀ p ∈ mem, ¬(p.1 = sid) := by
  simpa only [memHas, List.any_eq_false, decide_eq_true_eq] using h

theorem memHas_mCre_top (n : Nat) : memHas (mCre n) (akey n) = false := by
  simp only [mCre, memHas, List.any_eq_false, decide_eq_true_eq]
  intro p hp
  obtain ⟨j, hj, rfl⟩ := List.mem_map.mp hp
  exact fun hEq => absurd (akey_inj hEq) (Nat.ne_of_lt (List.mem_range.mp hj))

theorem reachable_mCre (n : Nat) : Reachable (mCre n) := by
  induction n with
  | zero => exact Reachable.empty
  | succ n ih =>
    have hstep := Reachable.create (mCre n) (akey n) ih
    rw [createFresh (mCre n) (akey n) (memHas_mCre_top n)] at hstep
    rw [show mCre (n + 1) = mCre n ++ [(akey n, [])] from by
      simp [mCre, List.range_succ]]
    exact hstep

theorem memHas_mFull_top (n : Nat) : memHas (mFull n) (akey n) = false := by
  simp only [mFull, memHas, List.any_eq_false, decide_eq_true_eq]
  intro p hp
  obtain ⟨j, hj, rfl⟩ := List.mem_map.mp hp
  exact fun hEq => absurd (akey_inj hEq) (Nat.ne_of_lt (List.mem_range.mp hj))

theorem mFull_length (n : Nat) : (mFull n).length = n := by
  simp [mFull]

theorem reachable_mFull (n : Nat) (hn : n ≤ max_memory_sessions) : Reachable (mFull n) := by
  induction n with
  | zero => exact Reachable.empty
  | succ n ih =>
    have h1 : Reachable (mFull n) := ih (by omega)
    have hfresh : memHas (mFull n) (akey n) = false := memHas_mFull_top n
    have hlen : (mFull n).length < max_memory_sessions := by
      rw [mFull_length]; omega
    have hs1 := Reachable.save (mFull n) (akey n) "user" "m" 0 h1
    rw [saveFresh (mFull n) (akey n) "user" "m" 0 hfresh hlen] at hs1
    have hs2 := Reachable.save _ (akey n) "user" "m" 0 hs1
    rw [saveLast (mFull n) (akey n) [Msg.mk "user" "m" 0] "user" "m" 0
      (keys_ne_of_memHas_false (mFull n) (akey n) hfresh)
      (by simp only [List.length_append, List.length_cons, List.length_nil, mFull_length]
          omega)] at hs2
    rw [show mFull (n + 1) = mFull n ++ [(akey n, [Msg.mk "user" "m" 0, Msg.mk "user" "m" 0])] from by
      simp [mFull, List.range_succ]]
    exact hs2

/-- Concrete evaluation of `String.trim` on the id "s1" (the recursion behind
`trim` is well-founded, so `decide` alone cannot reduce it). -/
theorem trim_s1 : "s1".trim = "s1" := by
  have h1 : Substring.takeWhileAux "s1" "s1".endPos Char.isWhitespace ⟨0⟩ = ⟨0⟩ := by
    rw [Substring.takeWhileAux]
    norm_num
    decide
  have h2 : Substring.takeRightWhileAux "s1" ⟨0⟩ Char.isWhitespace "s1".endPos
      = "s1".endPos := by
    rw [Substring.takeRightWhileAux]
    norm_num
    decide
  show (Substring.trim "s1".toSubstring).toString = "s1"
  simp only [String.toSubstring, Substring.trim, Substring.trimLeft, Substring.trimRight,
    Substring.dropWhile, Substring.dropRightWhile]
  rw [h1, h2]
  decide

theorem invalidSessionId_s1 : invalidSessionId "s1" = false := by
  simp only [invalidSessionId, trim_s1]
  decide

theorem memHas_false_iff_lookup_none (mem : Mem) (sid : String) :
    memHas mem sid = false ↔ memLookup mem sid = none := by
  constructor
  · exact memLookup_eq_none mem sid
  · intro h
    simp only [memLookup] at h
    have hf : mem.find? (fun p => decide (p.1 = sid)) = none := by
      cases hfind : mem.find? (fun p => decide (p.1 = sid)) with
      | none => rfl
      | some q => rw [hfind] at h; simp at h
    rw [List.find?_eq_none] at hf
    simp only [memHas, List.any_eq_false, decide_eq_true_eq]
    intro p hp
    simpa using hf p hp

theorem string_take_of_length_le (s : String) (n : Nat) (h : s.length ≤ n) :
    s.take n = s := by
  apply String.ext
  rw [String.data_take]
  exact List.take_of_length_le h

theorem string_append_empty (s : String) : s ++ "" = s := by
  apply String.ext
  simp

/-- The create-if-no-messages step followed by a fallback save: the session
list for the id afterwards is the previous list with the new message
appended (no eviction fires below the cap). -/
theorem ensure_save_lookup (mem : Mem) (sid role content : String) (ts : Nat)
    (hlen : mem.length < max_memory_sessions) :
    memLookup (memSaveMessage
        (if ((memLookup mem sid).getD []).isEmpty
          then (create_session_with_fallback false mem sid).2 else mem)
        sid role content ts) sid
      = some ((memLookup mem sid).getD [] ++ [Msg.mk role content ts]) := by
  by_cases hhas : memHas mem sid = true
  · have hcr : (create_session_with_fallback false mem sid).2 = mem := by
      simp [create_session_with_fallback, hhas]
    have hle : (memAppendRaw mem sid role content ts).length ≤ max_memory_sessions := by
      have := memAppendRaw_length_le mem sid role content ts
      omega
    by_cases he : ((memLookup mem sid).getD []).isEmpty = true
    · rw [if_pos he, hcr]
      exact memSaveMessage_lookup mem sid role content ts hle
    · rw [if_neg he]
      exact memSaveMessage_lookup mem sid role content ts hle
  · have hfresh : memHas mem sid = false := by simpa using hhas
    have hnone : memLookup mem sid = none :=
      (memHas_false_iff_lookup_none mem sid).mp hfresh
    rw [hnone]
    rw [if_pos (by rfl), createFresh mem sid hfresh]
    rw [saveLast mem sid [] role content ts (keys_ne_of_memHas_false mem sid hfresh)
      (by simp only [List.length_append, List.length_cons, List.length_nil]; omega)]
    rw [memLookup_append_fresh mem sid _ hfresh]
    rfl

/-- The context loop, for any attachment state, is the role-filtered map of
the walked index/message pairs, the payload entry appearing exactly where the
index condition of index.py line 212 holds. -/
theorem foldl_ctx_general (n : Nat) (img : Option String) (c : ApiContent) :
    ∀ (l : List (Nat × Msg)) (acc : List (String × ApiContent)),
      l.foldl
          (fun msgs p =>
            if p.2.role = "user" || p.2.role = "assistant" then
              if p.1 = n - 1 && p.2.role = "user" && img.isSome then
                msgs ++ [(p.2.role, c)]
              else
                msgs ++ [(p.2.role, ApiContent.text (stripImageMarker p.2.content))]
            else msgs)
          acc
        = acc ++ (l.filter (fun p => p.2.role = "user" || p.2.role = "assistant")).map
            (fun p => (p.2.role,
              if p.1 = n - 1 && p.2.role = "user" && img.isSome then c
              else ApiContent.text (stripImageMarker p.2.content))) := by
  intro l
  induction l with
  | nil => intro acc; simp
  | cons x xs ih =>
    intro acc
    rw [List.foldl_cons]
    by_cases hx : (decide (x.2.role = "user") || decide (x.2.role = "assistant")) = true
    · rw [if_pos hx]
      by_cases hin : (decide (x.1 = n - 1) && decide (x.2.role = "user") && img.isSome) = true
      · rw [if_pos hin, ih]
        simp only [List.filter_cons, hx, if_true, List.map_cons, hin,
          List.append_assoc, List.cons_append, List.nil_append]
      · rw [if_neg hin, ih]
        have hinf : (decide (x.1 = n - 1) && decide (x.2.role = "user") && img.isSome)
            = false := by simpa using hin
        simp only [List.filter_cons, hx, if_true, List.map_cons, hinf,
          Bool.false_eq_true, if_false, List.append_assoc, List.cons_append,
          List.nil_append]
    · rw [if_neg hx]
      rw [ih]
      have hxf : (decide (x.2.role = "user") || decide (x.2.role = "assistant")) = false := by
        simpa using hx
      simp only [List.filter_cons, hxf, Bool.false_eq_true, if_false]

/-- Filtering and projecting enumerated pairs on a predicate and function of
the message alone forgets the indices. -/
theorem enumFrom_filter_map_snd {α : Type} (P : Msg → Bool) (h : Nat × Msg → α)
    (g : Msg → α) (hg : ∀ p : Nat × Msg, h p = g p.2) :
    ∀ (l : List Msg) (k : Nat),
      ((l.enumFrom k).filter (fun p => P p.2)).map h = (l.filter P).map g := by
  intro l
  induction l with
  | nil => intro k; rfl
  | cons x xs ih =>
    intro k
    rw [List.enumFrom_cons, List.filter_cons, List.filter_cons]
    by_cases hx : P x = true
    · simp only [hx, if_true, List.map_cons, hg (k, x)]
      rw [ih]
    · simp only [hx, Bool.false_eq_true, if_false]
      exact ih (k + 1)

/-- The chat endpoint with a disconnected Persistent Store, reduced to its
Volatile Store effect. -/
theorem chat_no_api_key_disconnected (co so : Bool) (mem : Mem) (sid message : String)
    (ts : Nat) :
    chat_no_api_key false [] co so mem sid message ts
      = (503, memSaveMessage
          (if ((memLookup mem sid).getD []).isEmpty
            then (create_session_with_fallback false mem sid).2 else mem)
          sid "user" message ts) := by
  simp [chat_no_api_key, get_messages_with_fallback, save_message_with_fallback]

/-- The txt upload with a disconnected Persistent Store, reduced to its
Volatile Store effect. -/
theorem upload_txt_disconnected (co so : Bool) (mem : Mem)
    (sid filename text_content : String) (ts : Nat) :
    upload_txt false [] co so mem sid filename text_content ts
      = memSaveMessage
          (if ((memLookup mem sid).getD []).isEmpty
            then (create_session_with_fallback false mem sid).2 else mem)
          sid "system" (txt_upload_body filename text_content) ts := by
  simp [upload_txt, get_messages_with_fallback, save_message_with_fallback]

/-! Claim theorems. -/

/-- C1 counterexample: when the Persistent Store creation succeeds (dbOk =
true) on an empty Volatile Store, `create_session_with_fallback` returns the
identifier but leaves no entry for it in the Volatile Store, refuting the
claim that an entry exists regardless of the Persistent Store outcome. -/
theorem create_session_no_volatile_entry :
    (create_session_with_fallback true [] "s1").1 = "s1"
    ∧ memHas (create_session_with_fallback true [] "s1").2 "s1" = false :=
  ⟨rfl, rfl⟩

/-- C1 (amended): `create_session_with_fallback` always returns the given
identifier without failing; when the Persistent Store creation does not
succeed it ensures an entry for the id exists in the Volatile Store, and when
the Persistent Store creation succeeds the Volatile Store is left unchanged
(so no entry is added there). -/
theorem create_session_with_fallback_spec :
    ∀ (dbOk : Bool) (mem : Mem) (sid : String),
      (create_session_with_fallback dbOk mem sid).1 = sid
      ∧ memHas (create_session_with_fallback false mem sid).2 sid = true
      ∧ (create_session_with_fallback true mem sid).2 = mem := by
  intro dbOk mem sid
  refine ⟨by cases dbOk <;> rfl, ?_, rfl⟩
  simp only [create_session_with_fallback, Bool.false_eq_true, if_false]
  by_cases h : memHas mem sid = true
  · simp [h]
  · have hf : memHas mem sid = false := by simpa using h
    rw [if_neg (by simp [hf])]
    simp [memHas]

/-- C3: `save_message_with_fallback` returns success for every input in every
state: the Persistent Store branch returns True, and the Volatile Store
fallback branch has no failure path and also returns True. -/
theorem save_message_with_fallback_total :
    ∀ (dbOk : Bool) (mem : Mem) (sid role content : String) (ts : Nat),
      (save_message_with_fallback dbOk mem sid role content ts).1 = true := by
  intro dbOk mem sid role content ts
  cases dbOk <;> rfl

/-- C4: `get_messages_with_fallback` returns the Persistent Store sequence
exactly when that read yields a non-empty list, and otherwise the Volatile
Store sequence for the id (the empty list when the id is absent there).  The
hypothesis records that database.py returns `[]` whenever disconnected. -/
theorem get_messages_with_fallback_spec :
    ∀ (dbConnected : Bool) (dbMsgs : List Msg) (mem : Mem) (sid : String),
      (dbConnected = false → dbMsgs = []) →
      (dbMsgs ≠ [] → get_messages_with_fallback dbConnected dbMsgs mem sid = dbMsgs)
      ∧ (dbMsgs = [] →
          get_messages_with_fallback dbConnected dbMsgs mem sid
            = (memLookup mem sid).getD []) := by
  intro dbConnected dbMsgs mem sid hdb
  constructor
  · intro hne
    cases dbConnected with
    | false => exact absurd (hdb rfl) hne
    | true =>
      have : dbMsgs.isEmpty = false := by
        cases dbMsgs with
        | nil => exact absurd rfl hne
        | cons x xs => rfl
      simp [get_messages_with_fallback, this]
  · intro hnil
    subst hnil
    cases dbConnected <;> simp [get_messages_with_fallback]

/-- C4 witness: a connected store with one message short-circuits the
fallback. -/
theorem get_messages_with_fallback_spec_witness :
    get_messages_with_fallback true [Msg.mk "user" "hi" 0] [] "s1"
      = [Msg.mk "user" "hi" 0] :=
  (get_messages_with_fallback_spec true [Msg.mk "user" "hi" 0] [] "s1"
    (by simp)).1 (by simp)

/-- C5: for a valid session id, `delete_session` reports success (HTTP 200)
exactly when the Persistent Store deletion affected a record or the Volatile
Store held the session, reports not-found (HTTP 404) exactly when neither
store held it, and in every case the Volatile Store no longer holds the id
afterwards. -/
theorem delete_session_spec :
    ∀ (dbDeleted : Bool) (mem : Mem) (sid : String),
      invalidSessionId sid = false →
      ((delete_session dbDeleted mem sid).1 = 200
          ↔ (dbDeleted = true ∨ memHas mem sid = true))
      ∧ ((delete_session dbDeleted mem sid).1 = 404
          ↔ (dbDeleted = false ∧ memHas mem sid = false))
      ∧ memHas (delete_session dbDeleted mem sid).2 sid = false := by
  intro dbDeleted mem sid hvalid
  by_cases hmem : memHas mem sid = true
  · refine ⟨?_, ?_, ?_⟩ <;>
      simp [delete_session, hvalid, hmem, memHas_filter_ne]
  · have hf : memHas mem sid = false := by simpa using hmem
    cases dbDeleted
    · refine ⟨?_, ?_, ?_⟩ <;> simp [delete_session, hvalid, hf]
    · refine ⟨?_, ?_, ?_⟩ <;> simp [delete_session, hvalid, hf]

/-- C5 witness: deleting a session present only in the Volatile Store
succeeds. -/
theorem delete_session_spec_witness :
    (delete_session false [("s1", [Msg.mk "user" "hi" 0])] "s1").1 = 200 :=
  (delete_session_spec false [("s1", [Msg.mk "user" "hi" 0])] "s1"
    invalidSessionId_s1).1.mpr (Or.inr (by decide))

/-- C2 (amended): from any Volatile Store holding at most the cap of 100
sessions, a fallback append leaves at most 100 sessions; and whenever the
store holds more sessions than the cap after the raw append, the result is
obtained by deleting a session holding the fewest stored messages.  (From
reachable states above the cap — which `create_session_with_fallback` can
produce, since it never evicts — a single append does not restore the cap.) -/
theorem save_fallback_cap :
    ∀ (mem : Mem) (sid role content : String) (ts : Nat),
      mem.length ≤ max_memory_sessions →
      ((save_message_with_fallback false mem sid role content ts).2.length
          ≤ max_memory_sessions
        ∧ (max_memory_sessions < (memAppendRaw mem sid role content ts).length →
            ∃ k ms, (k, ms) ∈ memAppendRaw mem sid role content ts
              ∧ (∀ p ∈ memAppendRaw mem sid role content ts, ms.length ≤ p.2.length)
              ∧ (save_message_with_fallback false mem sid role content ts).2
                  = (memAppendRaw mem sid role content ts).filter
                      (fun p => !(p.1 = k)))) := by
  intro mem sid role content ts h
  constructor
  · exact memSaveMessage_cap mem sid role content ts h
  · intro hgt
    have hne : memAppendRaw mem sid role content ts ≠ [] := by
      intro hnil
      rw [hnil] at hgt
      simp [max_memory_sessions] at hgt
    obtain ⟨k, ms, hmin, hmem, hall⟩ := minByLen_spec _ hne
    refine ⟨k, ms, hmem, hall, ?_⟩
    show memSaveMessage mem sid role content ts = _
    unfold memSaveMessage
    rw [if_pos (by omega)]
    simp only [memEvict, hmin]

set_option maxRecDepth 20000 in
/-- C2 witness: appending over a full-but-capped store of 100 empty sessions
triggers an eviction and lands back at the cap. -/
theorem save_fallback_cap_witness :
    (mCre 100).length ≤ max_memory_sessions
    ∧ max_memory_sessions < (memAppendRaw (mCre 100) "b" "user" "m" 0).length
    ∧ (save_message_with_fallback false (mCre 100) "b" "user" "m" 0).2.length
        ≤ max_memory_sessions :=
  ⟨by decide, by decide,
    (save_fallback_cap (mCre 100) "b" "user" "m" 0 (by decide)).1⟩

set_option maxRecDepth 20000 in
/-- C2 counterexample: a reachable Volatile Store (102 sessions created
through the fallback of `create_session_with_fallback`, which never evicts)
still holds more than the cap of 100 sessions after a fallback append and its
eviction, refuting the claim that the eviction keeps the count at or below
the cap after every append from any reachable state. -/
theorem save_fallback_cap_reachable_counterexample :
    Reachable (mCre 102)
    ∧ max_memory_sessions
        < (save_message_with_fallback false (mCre 102) "b" "user" "m" 0).2.length :=
  ⟨reachable_mCre 102, by decide⟩

set_option maxRecDepth 20000 in
/-- C10: a reachable Volatile Store of 100 sessions with two messages each is
pushed past the cap by a fallback append to a fresh session; the appended
session is then the unique fewest-message session, so the eviction removes
the very session just written to: the append reports success, yet the id is
absent from the Volatile Store immediately afterwards. -/
theorem fallback_append_self_eviction :
    Reachable (mFull 100)
    ∧ (save_message_with_fallback false (mFull 100) "b" "user" "m" 0).1 = true
    ∧ memHas (save_message_with_fallback false (mFull 100) "b" "user" "m" 0).2 "b"
        = false :=
  ⟨reachable_mFull 100 (by decide), rfl, by decide⟩


/-- C6: for every session and every attachment state (an image attached or
not, any payload), the context sent to the external model is exactly the most
recent 10 stored messages restricted to the user and assistant roles, in
order (the window is a suffix of the session of length at most 10): the
transmitted entries are the role-filtered enumerated window, carrying the
multimodal payload exactly on the final user message when an image is
attached and marker-stripped text otherwise; the transmitted roles are
exactly the roles of the user/assistant messages of the window, and no
system-authored message enters the transmitted context (the stored list
itself is not modified by context assembly, which is a pure read). -/
theorem chat_context_window :
    ∀ (msgs : List Msg) (image_data : Option String) (c : ApiContent),
      chat_api_messages (recent_slice msgs) image_data c
        = ((recent_slice msgs).enum.filter
              (fun p => p.2.role = "user" || p.2.role = "assistant")).map
            (fun p => (p.2.role,
              if p.1 = (recent_slice msgs).length - 1 && p.2.role = "user"
                  && image_data.isSome
              then c else ApiContent.text (stripImageMarker p.2.content)))
      ∧ (chat_api_messages (recent_slice msgs) image_data c).map Prod.fst
          = ((recent_slice msgs).filter
                (fun m => m.role = "user" || m.role = "assistant")).map Msg.role
      ∧ (recent_slice msgs).length ≤ 10
      ∧ (recent_slice msgs).IsSuffix msgs
      ∧ (chat_api_messages (recent_slice msgs) image_data c).all
          (fun e => !(e.1 = "system")) = true := by
  intro msgs image_data c
  have hmain : chat_api_messages (recent_slice msgs) image_data c
      = ((recent_slice msgs).enum.filter
            (fun p => p.2.role = "user" || p.2.role = "assistant")).map
          (fun p => (p.2.role,
            if p.1 = (recent_slice msgs).length - 1 && p.2.role = "user"
                && image_data.isSome
            then c else ApiContent.text (stripImageMarker p.2.content))) := by
    unfold chat_api_messages
    rw [foldl_ctx_general ((recent_slice msgs).length) image_data c
      ((recent_slice msgs).enum) []]
    rfl
  refine ⟨hmain, ?_, ?_, ?_, ?_⟩
  · rw [hmain, List.map_map]
    exact enumFrom_filter_map_snd
      (fun m => m.role = "user" || m.role = "assistant") _ Msg.role
      (fun p => rfl) (recent_slice msgs) 0
  · unfold recent_slice
    by_cases h : msgs.length > 10
    · rw [if_pos h]
      rw [List.length_drop]
      omega
    · rw [if_neg h]
      omega
  · unfold recent_slice
    by_cases h : msgs.length > 10
    · rw [if_pos h]
      exact List.drop_suffix _ _
    · rw [if_neg h]
  · rw [hmain]
    simp only [List.all_eq_true]
    intro e he
    obtain ⟨p, hp, rfl⟩ := List.mem_map.mp he
    have hrole := (List.mem_filter.mp hp).2
    rcases Bool.or_eq_true_iff.mp hrole with h | h
    · have hr := of_decide_eq_true h
      simp [hr]
    · have hr := of_decide_eq_true h
      simp [hr]

/-- C7: a chat request with a message and a fresh session id, with the
Persistent Store disconnected and no external API credential configured,
returns HTTP 503 and stores exactly the one user message from the request:
no assistant message is appended. -/
theorem chat_no_api_key_503 :
    ∀ (dbCreateOk dbSaveOk : Bool) (mem : Mem) (sid message : String) (ts : Nat),
      memHas mem sid = false → mem.length < max_memory_sessions →
      (chat_no_api_key false [] dbCreateOk dbSaveOk mem sid message ts).1 = 503
      ∧ memLookup (chat_no_api_key false [] dbCreateOk dbSaveOk mem sid message ts).2 sid
          = some [Msg.mk "user" message ts] := by
  intro co so mem sid message ts hfresh hlen
  rw [chat_no_api_key_disconnected]
  refine ⟨rfl, ?_⟩
  show memLookup (memSaveMessage
      (if ((memLookup mem sid).getD []).isEmpty
        then (create_session_with_fallback false mem sid).2 else mem)
      sid "user" message ts) sid = some [Msg.mk "user" message ts]
  rw [ensure_save_lookup mem sid "user" message ts hlen,
    (memHas_false_iff_lookup_none mem sid).mp hfresh]
  rfl

/-- C7 witness: the spec scenario with session "s1" and message "hello" on an
empty Volatile Store. -/
theorem chat_no_api_key_503_witness :
    (chat_no_api_key false [] false false [] "s1" "hello" 0).1 = 503
    ∧ memLookup (chat_no_api_key false [] false false [] "s1" "hello" 0).2 "s1"
        = some [Msg.mk "user" "hello" 0] :=
  chat_no_api_key_503 false false [] "s1" "hello" 0 (by decide) (by decide)

/-- C8: uploading a text file with decoded content C appends exactly one new
system-authored message; its body embeds the first 2000 characters of C and
the source filename, ends with the "..." truncation marker exactly when C is
longer than 2000 characters, and carries no marker otherwise. -/
theorem upload_txt_spec :
    ∀ (dbCreateOk dbSaveOk : Bool) (mem : Mem) (sid filename text_content : String)
      (ts : Nat),
      mem.length < max_memory_sessions →
      memLookup (upload_txt false [] dbCreateOk dbSaveOk mem sid filename text_content ts)
          sid
        = some ((memLookup mem sid).getD []
            ++ [Msg.mk "system" (txt_upload_body filename text_content) ts])
      ∧ (∃ a b, txt_upload_body filename text_content
            = a ++ text_content.take 2000 ++ b)
      ∧ (∃ a b, txt_upload_body filename text_content = a ++ filename ++ b)
      ∧ (text_content.length > 2000 →
          txt_upload_body filename text_content
            = ("User uploaded a text file \x27" ++ filename ++ "\x27. Content:\n\n"
                ++ text_content.take 2000) ++ "...")
      ∧ (¬ text_content.length > 2000 →
          txt_upload_body filename text_content
            = "User uploaded a text file \x27" ++ filename ++ "\x27. Content:\n\n"
                ++ text_content.take 2000) := by
  intro co so mem sid filename text_content ts hlen
  refine ⟨?_, ?_, ?_, ?_, ?_⟩
  · rw [upload_txt_disconnected]
    exact ensure_save_lookup mem sid "system" (txt_upload_body filename text_content) ts hlen
  · exact ⟨"User uploaded a text file \x27" ++ filename ++ "\x27. Content:\n\n",
      (if text_content.length > 2000 then "..." else ""), rfl⟩
  · refine ⟨"User uploaded a text file \x27",
      "\x27. Content:\n\n" ++ text_content.take 2000
        ++ (if text_content.length > 2000 then "..." else ""), ?_⟩
    simp [txt_upload_body, String.append_assoc]
  · intro hgt
    simp only [txt_upload_body, if_pos hgt]
  · intro hle
    simp only [txt_upload_body, if_neg hle]
    exact string_append_empty _

/-- C8 witness: a short file on a fresh session stores one untruncated system
message. -/
theorem upload_txt_spec_witness :
    memLookup (upload_txt false [] false false [] "s1" "notes.txt" "hi" 0) "s1"
      = some [Msg.mk "system" (txt_upload_body "notes.txt" "hi") 0]
    ∧ txt_upload_body "notes.txt" "hi"
        = "User uploaded a text file \x27notes.txt\x27. Content:\n\n" ++ ("hi" : String).take 2000 :=
  ⟨(upload_txt_spec false false [] "s1" "notes.txt" "hi" 0 (by decide)).1,
    (upload_txt_spec false false [] "s1" "notes.txt" "hi" 0 (by decide)).2.2.2.2 (by decide)⟩

/-- C9: every summary listed from either store is derived per session by the
shared shape: the preview is the first user-authored message truncated at 50
characters with the "..." marker exactly when longer than 50 characters and
unmodified otherwise, and the message count counts only user/assistant
messages, excluding system-authored ones. -/
theorem list_sessions_summary_spec :
    ∀ (mem : Mem) (rows : List DbSessionRow) (s : SessionSummary)
      (msgs : List Msg) (m0 : Msg) (sid : String),
      (s ∈ list_sessions_memory mem →
        ∃ ms, (s.session_id, ms) ∈ mem ∧ s = memory_session_summary s.session_id ms)
      ∧ (s ∈ get_recent_sessions rows →
        ∃ r, r ∈ rows ∧ s = db_session_summary r)
      ∧ (msgs.find? (fun m => m.role = "user") = some m0 →
          session_preview msgs = preview_spec m0.content)
      ∧ ((∀ m ∈ msgs, m.role = "user" ∨ m.role = "assistant" ∨ m.role = "system") →
          (memory_session_summary sid msgs).message_count
              = (msgs.filter (fun m => !(m.role = "system"))).length
          ∧ (db_session_summary (DbSessionRow.mk sid 0 0 msgs)).message_count
              = (msgs.filter (fun m => !(m.role = "system"))).length) := by
  intro mem rows s msgs m0 sid
  refine ⟨?_, ?_, ?_, ?_⟩
  · intro hs
    rw [list_sessions_memory, List.mem_mergeSort] at hs
    obtain ⟨p, hp, hsome⟩ := List.mem_filterMap.mp hs
    by_cases he : p.2.isEmpty = true
    · rw [if_pos he] at hsome
      cases hsome
    · rw [if_neg he] at hsome
      have hps := Option.some.inj hsome
      refine ⟨p.2, ?_, ?_⟩
      · rw [← hps]
        simpa [memory_session_summary] using hp
      · rw [← hps]
        rfl
  · intro hs
    obtain ⟨r, hr, hrs⟩ := List.mem_map.mp hs
    exact ⟨r, hr, hrs.symm⟩
  · intro hfind
    rw [session_preview, hfind]
    show m0.content.take 50 ++ (if m0.content.length > 50 then "..." else "")
      = preview_spec m0.content
    rw [preview_spec]
    by_cases hlen : m0.content.length > 50
    · rw [if_pos hlen, if_pos hlen]
    · rw [if_neg hlen, if_neg hlen]
      rw [string_take_of_length_le m0.content 50 (by omega)]
      exact string_append_empty _
  · intro hroles
    have hfe : msgs.filter (fun m => m.role = "user" || m.role = "assistant")
        = msgs.filter (fun m => !(m.role = "system")) := by
      apply List.filter_congr
      intro m hm
      rcases hroles m hm with h | h | h <;> rw [h] <;> rfl
    constructor
    · simp only [memory_session_summary]
      rw [hfe]
    · simp only [db_session_summary]
      rw [hfe]

/-- C9 witness: a 55-character first user message is truncated with the
marker, and system messages are excluded from the count. -/
theorem list_sessions_summary_spec_witness :
    session_preview [Msg.mk "user" "hello" 0] = preview_spec "hello"
    ∧ (memory_session_summary "s1" [Msg.mk "user" "hello" 0, Msg.mk "system" "x" 1]).message_count
        = ([Msg.mk "user" "hello" 0, Msg.mk "system" "x" 1].filter
            (fun m => !(m.role = "system"))).length :=
  ⟨(list_sessions_summary_spec [] [] (SessionSummary.mk "" "" 0 0 0)
      [Msg.mk "user" "hello" 0] (Msg.mk "user" "hello" 0) "s1").2.2.1 (by decide),
    ((list_sessions_summary_spec [] [] (SessionSummary.mk "" "" 0 0 0)
      [Msg.mk "user" "hello" 0, Msg.mk "system" "x" 1] (Msg.mk "user" "hello" 0) "s1").2.2.2
      (by decide)).1⟩

end Chatbot
